import Mathlib

set_option maxRecDepth 8000

namespace VideoToAudio

/-! Shallow embedding of the video-to-audio pipeline.  JavaScript strings
are modelled as lists of characters, JavaScript numbers that carry
durations as rationals (with a separate marker for NaN where it matters),
byte sizes as naturals, and the external services (ffmpeg/ffprobe, the
speech and generation APIs, the wiki API) as explicit environment
parameters describing their outcomes. -/

/-- JavaScript string, modelled as a list of characters. -/
abbrev JStr := List Char

/-- Whitespace test modelling the JavaScript whitespace class restricted to
the ASCII whitespace characters (space, tab, newline, carriage return,
vertical tab, form feed), which are the ones relevant to this code base. -/
def isJsWs (c : Char) : Bool :=
  c == ' ' || c == '\t' || c == '\n' || c == '\r' ||
    c == Char.ofNat 11 || c == Char.ofNat 12

/-- Model of JavaScript String.prototype.trim. -/
def jsTrim (s : JStr) : JStr :=
  ((s.dropWhile isJsWs).reverse.dropWhile isJsWs).reverse

/-- Model of Array.prototype.join with a separator. -/
def jsJoin (sep : JStr) : List JStr → JStr
  | [] => []
  | [s] => s
  | s :: t :: rest => s ++ sep ++ jsJoin sep (t :: rest)

/-- Model of String.prototype.toLowerCase. -/
def jsLower (s : JStr) : JStr := s.map Char.toLower

/-- Check whether the first list is a prefix of the second. -/
def startsWithList : JStr → JStr → Bool
  | [], _ => true
  | _ :: _, [] => false
  | a :: as, b :: bs => a == b && startsWithList as bs

/-- Check whether the needle occurs as a contiguous substring of the
haystack, modelling String.prototype.includes. -/
def containsSubList (needle : JStr) : JStr → Bool
  | [] => needle.isEmpty
  | c :: rest => startsWithList needle (c :: rest) || containsSubList needle rest

theorem startsWithList_iff (a b : JStr) :
    startsWithList a b = true ↔ ∃ r, b = a ++ r := by
  induction a generalizing b with
  | nil => simp [startsWithList]
  | cons x xs ih =>
    cases b with
    | nil =>
      simp [startsWithList]
    | cons y ys =>
      simp only [startsWithList, Bool.and_eq_true, beq_iff_eq, ih]
      constructor
      · rintro ⟨rfl, r, rfl⟩
        exact ⟨r, rfl⟩
      · rintro ⟨r, h⟩
        cases h
        exact ⟨rfl, r, rfl⟩

theorem containsSubList_iff (n h : JStr) :
    containsSubList n h = true ↔ ∃ l r, h = l ++ n ++ r := by
  induction h with
  | nil =>
    simp only [containsSubList, List.isEmpty_iff]
    constructor
    · rintro rfl
      exact ⟨[], [], rfl⟩
    · rintro ⟨l, r, hn⟩
      have h1 := List.append_eq_nil.mp hn.symm
      exact (List.append_eq_nil.mp h1.1).2
  | cons c rest ih =>
    simp only [containsSubList, Bool.or_eq_true, startsWithList_iff, ih]
    constructor
    · rintro (⟨r, hr⟩ | ⟨l, r, hr⟩)
      · exact ⟨[], r, by simpa using hr⟩
      · exact ⟨c :: l, r, by simp [hr]⟩
    · rintro ⟨l, r, hr⟩
      cases l with
      | nil => exact Or.inl ⟨r, by simpa using hr⟩
      | cons x xs =>
        have h2 : rest = xs ++ n ++ r := by
          simpa using congrArg List.tail hr
        exact Or.inr ⟨xs, r, h2⟩

/-! Model of src/utils/compressAudio.ts. -/

/-- Constant maxFileSize = 25 * 1024 * 1024 bytes from the source. -/
def maxFileSize : ℕ := 25 * 1024 * 1024

/-- Outcome of fs.statSync for a path: none models a thrown error
(missing file), some s a successful stat of a file with s bytes. -/
abbrev StatOutcome := Option ℕ

/-- Model of getAudioSize: returns stats.size, or 0 when statSync throws. -/
def getAudioSize (stat : StatOutcome) : ℕ :=
  match stat with
  | some s => s
  | none => 0

/-- Outcome of an ffprobe run, as seen by getAudioDuration:
the probe can error, report no numeric duration, report NaN, or report a
numeric duration. -/
inductive ProbeResult where
  | probeErr : ProbeResult
  | notNumber : ProbeResult
  | nan : ProbeResult
  | value : ℚ → ProbeResult
deriving DecidableEq

/-- Model of getAudioDuration: rejects when ffprobe errors or when
metadata.format.duration is not of number type; resolves with the numeric
value otherwise (NaN is a number in JavaScript, modelled as ok none). -/
def getAudioDuration (p : ProbeResult) : Except Unit (Option ℚ) :=
  match p with
  | .probeErr => .error ()
  | .notNumber => .error ()
  | .nan => .ok none
  | .value q => .ok (some q)

/-- Number of chunks splitAudioIntoChunks creates: the numberOfChunks
argument when it is a truthy number (JavaScript treats 0 as falsy), else
ceil(fileSize / maxFileSize). -/
def chunksToCreate (fileSize : ℕ) (numberOfChunks : Option ℕ) : ℕ :=
  match numberOfChunks with
  | some n => if n ≠ 0 then n else ⌈(fileSize : ℚ) / (maxFileSize : ℚ)⌉₊
  | none => ⌈(fileSize : ℚ) / (maxFileSize : ℚ)⌉₊

/-- Ffmpeg invocation planned for one chunk: the seekInput start time and
the optional duration bound (the last chunk gets no duration call). -/
structure ChunkSpec where
  startTime : ℚ
  durationBound : Option ℚ
deriving DecidableEq

/-- Per-chunk ffmpeg commands issued by the loop in splitAudioIntoChunks:
chunk i seeks to i * chunkDuration with chunkDuration = totalDuration /
chunksToCreate, and every chunk except the final one is bounded to
chunkDuration. -/
def splitAudioChunkSpecs (totalDuration : ℚ) (fileSize : ℕ)
    (numberOfChunks : Option ℕ) : List ChunkSpec :=
  let n := chunksToCreate fileSize numberOfChunks
  let chunkDuration := totalDuration / (n : ℚ)
  (List.range n).map fun (i : ℕ) =>
    { startTime := (i : ℚ) * chunkDuration
      durationBound := if i = n - 1 then none else some chunkDuration }

/-- State of a chunk file on disk after its ffmpeg run finished. -/
structure ChunkFileState where
  onDisk : Bool
  size : ℕ
deriving DecidableEq

/-- Environment of one splitAudioIntoChunks invocation: the ffprobe
outcome for the source file, the statSync outcome for the source file, and
for each chunk index the outcome of its ffmpeg transcode run together with
the resulting chunk-file state. -/
structure SplitEnv where
  probe : ProbeResult
  stat : StatOutcome
  transcode : ℕ → Except Unit ChunkFileState

/-- Errors with which splitAudioIntoChunks can reject. -/
inductive SplitError where
  | probeFailed : SplitError
  | transcodeFailed : SplitError
  | noValidChunks : SplitError
deriving DecidableEq

/-- Filter applied after all chunk ffmpeg runs: keep only the chunk
indices whose file exists on disk with nonzero size. -/
def validChunkFilter (env : SplitEnv) (n : ℕ) : List ℕ :=
  (List.range n).filter fun i =>
    match env.transcode i with
    | .ok st => st.onDisk && st.size != 0
    | .error _ => false

/-- Model of splitAudioIntoChunks: obtain the source duration (a probe
rejection rejects the whole call), compute the chunk count, await all
chunk transcodes (any rejection rejects the whole call), filter out chunk
paths that are missing or empty, and reject with the noValidChunks error
(message 'No valid chunks were created') when nothing remains. -/
def splitAudioIntoChunks (env : SplitEnv) (numberOfChunks : Option ℕ) :
    Except SplitError (List ℕ) :=
  match getAudioDuration env.probe with
  | .error _ => .error .probeFailed
  | .ok _ =>
    let n := chunksToCreate (getAudioSize env.stat) numberOfChunks
    if (List.range n).any (fun i => !(env.transcode i).isOk) then
      .error .transcodeFailed
    else
      let valid := validChunkFilter env n
      if valid.isEmpty then .error .noValidChunks else .ok valid

/-! Model of src/main/transcriptAudio.ts. -/

/-- Constant maxDurationSeconds = 1400 from the source. -/
def maxDurationSeconds : ℕ := 1400

/-- Environment of one audio file as seen by the orchestrator: existence
on disk, statSync outcome, ffprobe outcome. -/
structure AudioEnv where
  onDisk : Bool
  stat : StatOutcome
  probe : ProbeResult

/-- Model of validateAudioFile: false when the file does not exist, when
getAudioSize returns 0, when getAudioDuration rejects, or when the
resolved duration is 0 or NaN; true otherwise.  The source wraps the whole
body in try/catch and always returns a boolean, modelled here by a total
Bool-valued function. -/
def validateAudioFile (env : AudioEnv) : Bool :=
  if env.onDisk = false then false
  else if getAudioSize env.stat = 0 then false
  else
    match getAudioDuration env.probe with
    | .error _ => false
    | .ok none => false
    | .ok (some d) => if d = 0 then false else true

/-- Decision needsSplitting = audioSize > maxFileSize || audioDuration >
maxDurationSeconds from transcriptMP3Audio. -/
def needsSplitting (audioSize : ℕ) (audioDuration : ℚ) : Bool :=
  decide (audioSize > maxFileSize) ||
    decide (audioDuration > (maxDurationSeconds : ℚ))

/-- Chunk count used by transcriptMP3Audio: when splitting is needed,
max(ceil(duration / maxDurationSeconds), ceil(size / maxFileSize));
otherwise the file is processed directly as a single unit. -/
def plannedChunkCount (audioSize : ℕ) (audioDuration : ℚ) : ℤ :=
  if needsSplitting audioSize audioDuration then
    max ⌈audioDuration / (maxDurationSeconds : ℚ)⌉
      ⌈(audioSize : ℚ) / (maxFileSize : ℚ)⌉
  else 1

/-- C1: for every audio file that passes validation the orchestrator needs
segmentation exactly when the byte size exceeds 26214400 bytes or the
duration exceeds 1400 seconds; in that case the computed chunk count is
max(ceil(duration/1400), ceil(size/26214400)); otherwise the file is
processed as a single unit (chunk count 1, no splitting). -/
theorem c1_segmentation_decision (audioSize : ℕ) (audioDuration : ℚ) :
    (needsSplitting audioSize audioDuration = true ↔
      audioSize > 26214400 ∨ audioDuration > 1400)
    ∧ (audioSize > 26214400 ∨ audioDuration > 1400 →
        plannedChunkCount audioSize audioDuration =
          max ⌈audioDuration / 1400⌉ ⌈(audioSize : ℚ) / 26214400⌉)
    ∧ (audioSize ≤ 26214400 → audioDuration ≤ 1400 →
        plannedChunkCount audioSize audioDuration = 1) := by
  have hiff : needsSplitting audioSize audioDuration = true ↔
      audioSize > 26214400 ∨ audioDuration > 1400 := by
    simp only [needsSplitting, Bool.or_eq_true, decide_eq_true_eq,
      maxFileSize, maxDurationSeconds]
    norm_num
  refine ⟨hiff, fun h => ?_, fun h1 h2 => ?_⟩
  · rw [plannedChunkCount, if_pos (hiff.mpr h)]
    norm_num [maxFileSize, maxDurationSeconds]
  · rw [plannedChunkCount, if_neg]
    intro hc
    rcases hiff.mp hc with h | h
    · omega
    · linarith

/-- Witness for C1 at the 40-minute, 30 MiB example of the specification:
the file needs splitting and the chunk count is 2. -/
theorem c1_segmentation_decision_witness :
    needsSplitting 31457280 2400 = true ∧ plannedChunkCount 31457280 2400 = 2 := by
  have h := c1_segmentation_decision 31457280 2400
  have hcond : (31457280 : ℕ) > 26214400 ∨ (2400 : ℚ) > 1400 := by norm_num
  refine ⟨h.1.mpr hcond, ?_⟩
  rw [h.2.1 hcond]
  have h1 : ⌈(2400 : ℚ) / 1400⌉ = 2 := by
    rw [Int.ceil_eq_iff]
    norm_num
  have h2 : ⌈((31457280 : ℕ) : ℚ) / 26214400⌉ = 2 := by
    rw [Int.ceil_eq_iff]
    norm_num
  rw [h1, h2, max_self]

/-- C6: the audio validator is a total boolean function (never throws) and
returns false when the file is missing, when its byte size is zero or the
stat fails, when the duration probe errors, and when the probe reports a 0
or NaN duration. -/
theorem c6_validator_rejects (env : AudioEnv) :
    (env.onDisk = false → validateAudioFile env = false)
    ∧ (env.stat = some 0 → validateAudioFile env = false)
    ∧ (env.stat = none → validateAudioFile env = false)
    ∧ (env.probe = .probeErr → validateAudioFile env = false)
    ∧ (env.probe = .notNumber → validateAudioFile env = false)
    ∧ (env.probe = .nan → validateAudioFile env = false)
    ∧ (env.probe = .value 0 → validateAudioFile env = false) := by
  refine ⟨fun h => ?_, fun h => ?_, fun h => ?_, fun h => ?_, fun h => ?_,
    fun h => ?_, fun h => ?_⟩ <;>
    simp [validateAudioFile, h, getAudioSize, getAudioDuration]

/-- Witness for C6 at a concrete corrupt file (exists, 10 bytes, probe
reports NaN): the validator returns false. -/
theorem c6_validator_rejects_witness :
    validateAudioFile { onDisk := true, stat := some 10, probe := .nan } = false :=
  (c6_validator_rejects { onDisk := true, stat := some 10, probe := .nan }).2.2.2.2.2.1 rfl

/-- C2: for a source of duration D split into N chunks the segmenter seeks
chunk i to start time i*(D/N), bounds every chunk except the last to
duration D/N, leaves the last chunk with no explicit duration bound, and
when the chunk-count argument is omitted computes N =
ceil(fileSize / 26214400). -/
theorem c2_chunk_geometry (totalDuration : ℚ) (fileSize : ℕ)
    (numberOfChunks : Option ℕ) :
    (splitAudioChunkSpecs totalDuration fileSize numberOfChunks).length =
      chunksToCreate fileSize numberOfChunks
    ∧ (∀ i, i < chunksToCreate fileSize numberOfChunks →
        ((splitAudioChunkSpecs totalDuration fileSize numberOfChunks)[i]?).map
            ChunkSpec.startTime =
          some ((i : ℚ) *
            (totalDuration / (chunksToCreate fileSize numberOfChunks : ℚ))))
    ∧ (∀ i, i + 1 < chunksToCreate fileSize numberOfChunks →
        ((splitAudioChunkSpecs totalDuration fileSize numberOfChunks)[i]?).map
            ChunkSpec.durationBound =
          some (some
            (totalDuration / (chunksToCreate fileSize numberOfChunks : ℚ))))
    ∧ (0 < chunksToCreate fileSize numberOfChunks →
        ((splitAudioChunkSpecs totalDuration fileSize
              numberOfChunks)[chunksToCreate fileSize numberOfChunks - 1]?).map
            ChunkSpec.durationBound = some none)
    ∧ (numberOfChunks = none →
        chunksToCreate fileSize numberOfChunks =
          ⌈(fileSize : ℚ) / 26214400⌉₊) := by
  have hget : ∀ i, i < chunksToCreate fileSize numberOfChunks →
      (splitAudioChunkSpecs totalDuration fileSize numberOfChunks)[i]? =
        some { startTime := (i : ℚ) *
                 (totalDuration / (chunksToCreate fileSize numberOfChunks : ℚ)),
               durationBound :=
                 if i = chunksToCreate fileSize numberOfChunks - 1 then none
                 else some (totalDuration /
                   (chunksToCreate fileSize numberOfChunks : ℚ)) } := by
    intro i hi
    unfold splitAudioChunkSpecs
    rw [List.getElem?_map, List.getElem?_range hi]
    rfl
  refine ⟨?_, ?_, ?_, ?_, ?_⟩
  · unfold splitAudioChunkSpecs
    rw [List.length_map, List.length_range]
  · intro i hi
    rw [hget i hi]
    rfl
  · intro i hi
    have h1 : i < chunksToCreate fileSize numberOfChunks := by omega
    have h2 : i ≠ chunksToCreate fileSize numberOfChunks - 1 := by omega
    rw [hget i h1]
    simp [h2]
  · intro hn
    have h1 : chunksToCreate fileSize numberOfChunks - 1 <
        chunksToCreate fileSize numberOfChunks := by omega
    rw [hget _ h1]
    simp
  · intro h
    subst h
    norm_num [chunksToCreate, maxFileSize]

/-- Witness for C2 at duration 3000 s, size 31457280 bytes, chunk count
omitted: two chunks, chunk 0 bounded to 1500 s, chunk 1 unbounded. -/
theorem c2_chunk_geometry_witness :
    chunksToCreate 31457280 none = 2
    ∧ ((splitAudioChunkSpecs 3000 31457280 none)[0]?).map
        ChunkSpec.startTime = some 0
    ∧ ((splitAudioChunkSpecs 3000 31457280 none)[1]?).map
        ChunkSpec.durationBound = some none := by
  have h := c2_chunk_geometry 3000 31457280 none
  have hn : chunksToCreate 31457280 none = 2 := by
    rw [h.2.2.2.2 rfl]
    rw [Nat.ceil_eq_iff (by norm_num)]
    norm_num
  refine ⟨hn, ?_, ?_⟩
  · have h0 := h.2.1 0 (by rw [hn]; norm_num)
    rw [h0]
    norm_num
  · have h1 := h.2.2.2.1 (by rw [hn]; norm_num)
    rw [hn] at h1
    exact h1

/-- C7: whenever splitAudioIntoChunks succeeds, the returned list is the
post-transcode filter that removed every chunk missing on disk or of zero
size, it is non-empty, and every returned chunk exists with nonzero size;
and when every transcode succeeded but the filtered set is empty, the call
rejects with the noValidChunks error. -/
theorem c7_valid_chunk_guarantee (env : SplitEnv) (arg : Option ℕ) :
    (∀ l, splitAudioIntoChunks env arg = .ok l →
      l = validChunkFilter env (chunksToCreate (getAudioSize env.stat) arg)
      ∧ l ≠ []
      ∧ ∀ i ∈ l, ∃ st, env.transcode i = .ok st ∧ st.onDisk = true ∧ 0 < st.size)
    ∧ (∀ d, getAudioDuration env.probe = .ok d →
        ((List.range (chunksToCreate (getAudioSize env.stat) arg)).any
          (fun i => !(env.transcode i).isOk)) = false →
        validChunkFilter env (chunksToCreate (getAudioSize env.stat) arg) = [] →
        splitAudioIntoChunks env arg = .error .noValidChunks) := by
  constructor
  · intro l hl
    unfold splitAudioIntoChunks at hl
    cases hp : getAudioDuration env.probe with
    | error e => rw [hp] at hl; cases hl
    | ok d =>
      rw [hp] at hl
      dsimp only at hl
      split at hl
      · cases hl
      · split at hl
        · cases hl
        · rename_i hne
          cases hl
          refine ⟨rfl, by simpa [List.isEmpty_iff] using hne, ?_⟩
          intro i hi
          unfold validChunkFilter at hi
          have hpred := (List.mem_filter.mp hi).2
          cases ht : env.transcode i with
          | error e => rw [ht] at hpred; cases hpred
          | ok st =>
            rw [ht] at hpred
            have hb := Bool.and_eq_true_iff.mp hpred
            exact ⟨st, rfl, hb.1, Nat.pos_of_ne_zero (by simpa using hb.2)⟩
  · intro d hd hany hvalid
    unfold splitAudioIntoChunks
    rw [hd]
    dsimp only
    rw [hany]
    simp [hvalid]

/-- Environment used by the C7 witness: probe succeeds, file of 100 bytes,
both transcodes succeed with 5-byte chunk files. -/
def c7Env : SplitEnv :=
  { probe := .value 10, stat := some 100,
    transcode := fun _ => .ok { onDisk := true, size := 5 } }

/-- Witness for C7: with two successful 5-byte chunks the call returns
both chunk indices, and they satisfy the validity guarantee. -/
theorem c7_valid_chunk_guarantee_witness :
    ([0, 1] : List ℕ) ≠ []
    ∧ ∀ i ∈ ([0, 1] : List ℕ), ∃ st, c7Env.transcode i = .ok st
        ∧ st.onDisk = true ∧ 0 < st.size :=
  ((c7_valid_chunk_guarantee c7Env (some 2)).1 [0, 1] rfl).2

/-- C10: when the source stat fails (missing path) or reports zero bytes
and the chunk-count argument is omitted, the size probe yields 0 without
throwing, the computed chunk count is 0, no transcode operation is
launched, and the call rejects with the noValidChunks error (message
'No valid chunks were created') instead of resolving with an empty list. -/
theorem c10_zero_size_split (env : SplitEnv)
    (hstat : env.stat = none ∨ env.stat = some 0)
    (d : Option ℚ) (hprobe : getAudioDuration env.probe = .ok d) :
    getAudioSize env.stat = 0
    ∧ chunksToCreate (getAudioSize env.stat) none = 0
    ∧ List.range (chunksToCreate (getAudioSize env.stat) none) = []
    ∧ splitAudioIntoChunks env none = .error .noValidChunks := by
  have hsize : getAudioSize env.stat = 0 := by
    rcases hstat with h | h <;> simp [getAudioSize, h]
  have hcount : chunksToCreate (getAudioSize env.stat) none = 0 := by
    rw [hsize]
    simp [chunksToCreate]
  refine ⟨hsize, hcount, by rw [hcount, List.range_zero], ?_⟩
  unfold splitAudioIntoChunks
  rw [hprobe]
  dsimp only
  rw [hcount]
  simp [validChunkFilter]

/-- Environment used by the C10 witness: probe resolves with 5 s, stat
throws (missing file). -/
def c10Env : SplitEnv :=
  { probe := .value 5, stat := none,
    transcode := fun _ => .ok { onDisk := true, size := 1 } }

/-- Witness for C10 at a missing source file whose probe resolves. -/
theorem c10_zero_size_split_witness :
    getAudioSize c10Env.stat = 0
    ∧ chunksToCreate (getAudioSize c10Env.stat) none = 0
    ∧ List.range (chunksToCreate (getAudioSize c10Env.stat) none) = []
    ∧ splitAudioIntoChunks c10Env none = .error .noValidChunks :=
  c10_zero_size_split c10Env (Or.inl rfl) (some 5) rfl

/-! Chunk transcription, error classification and transcript combination
from src/main/transcriptAudio.ts. -/

/-- Error object raised by the transcription client: a message and the
optional HTTP status of error.response. -/
structure JsError where
  message : JStr
  status : Option ℕ

/-- Fixed substring list corruptionIndicators from processAudioChunk. -/
def corruptionIndicators : List JStr :=
  ["invalid".toList, "corrupt".toList, "malformed".toList,
   "unsupported".toList, "decode".toList, "bad request".toList,
   "invalid_request_error".toList]

/-- Classification isCorruptionError: some indicator occurs in the
lowercased message, or error.response.status is 400. -/
def isCorruptionError (e : JsError) : Bool :=
  corruptionIndicators.any (fun ind => containsSubList ind (jsLower e.message))
    || e.status == some 400

/-- Catch handler of processAudioChunk: re-raise a typed corruption error
when the failure is classified as corruption, otherwise resolve with the
empty string so processing continues. -/
def chunkCatchHandler (e : JsError) : Except JStr JStr :=
  if isCorruptionError e then
    .error ("Corrupted audio chunk detected: ".toList ++ e.message)
  else .ok []

/-- Model of processAudioChunk: a missing chunk file raises (and is caught
by the function's own catch); a transcription failure goes through the
catch handler; an empty or whitespace-only transcription yields the empty
string; otherwise the text is returned. -/
def processAudioChunk (chunkPath : JStr) (chunkOnDisk : Bool)
    (transcription : Except JsError JStr) : Except JStr JStr :=
  if chunkOnDisk = false then
    chunkCatchHandler
      { message := "Chunk file not found: ".toList ++ chunkPath, status := none }
  else
    match transcription with
    | .error e => chunkCatchHandler e
    | .ok t => if (jsTrim t).isEmpty then .ok [] else .ok t

/-- C4: a chunk-level transcription failure raises a typed corruption
error exactly when the lowercased message contains one of the fixed
indicator substrings or the HTTP status is 400; every other failure
resolves with the empty string. -/
theorem c4_corruption_classification (e : JsError) (chunkPath : JStr) :
    ((∃ msg, processAudioChunk chunkPath true (.error e) = .error msg) ↔
      ((∃ ind ∈ corruptionIndicators, ∃ l r, jsLower e.message = l ++ ind ++ r)
        ∨ e.status = some 400))
    ∧ (¬ ((∃ ind ∈ corruptionIndicators, ∃ l r, jsLower e.message = l ++ ind ++ r)
        ∨ e.status = some 400) →
      processAudioChunk chunkPath true (.error e) = .ok []) := by
  have hcls : isCorruptionError e = true ↔
      ((∃ ind ∈ corruptionIndicators, ∃ l r, jsLower e.message = l ++ ind ++ r)
        ∨ e.status = some 400) := by
    simp only [isCorruptionError, Bool.or_eq_true, List.any_eq_true,
      beq_iff_eq, containsSubList_iff]
  constructor
  · constructor
    · rintro ⟨msg, hmsg⟩
      by_contra hcon
      have hfalse : isCorruptionError e = false := by
        cases hb : isCorruptionError e
        · rfl
        · exact absurd (hcls.mp hb) hcon
      simp [processAudioChunk, chunkCatchHandler, hfalse] at hmsg
    · intro h
      refine ⟨"Corrupted audio chunk detected: ".toList ++ e.message, ?_⟩
      simp [processAudioChunk, chunkCatchHandler, hcls.mpr h]
  · intro h
    have hfalse : isCorruptionError e = false := by
      cases hb : isCorruptionError e
      · rfl
      · exact absurd (hcls.mp hb) h
    simp [processAudioChunk, chunkCatchHandler, hfalse]

/-- Witness for C4 at an HTTP 400 failure: the chunk raises the typed
corruption error. -/
theorem c4_corruption_classification_witness :
    ∃ msg, processAudioChunk [] true
      (.error { message := "Bad Request".toList, status := some 400 }) =
        .error msg :=
  (c4_corruption_classification
    { message := "Bad Request".toList, status := some 400 } []).1.mpr
    (Or.inr rfl)

/-- Filter predicate of the combination step: keep a chunk result when it
is truthy (non-empty) and its trimmed length is positive. -/
def keepTranscription (t : JStr) : Bool :=
  !t.isEmpty && decide (0 < (jsTrim t).length)

/-- Combination step of transcriptMP3Audio: filter out empty or
whitespace-only chunk results and join the rest with a blank line. -/
def combineTranscriptions (ts : List JStr) : JStr :=
  jsJoin "\n\n".toList (ts.filter keepTranscription)

/-- Persist-or-quarantine decision after combining: save the combined
transcript when its trimmed length is positive, otherwise report none
(the file is moved to the error folder). -/
def transcriptPersistDecision (ts : List JStr) : Option JStr :=
  if 0 < (jsTrim (combineTranscriptions ts)).length then
    some (combineTranscriptions ts)
  else none

/-- Slot-filling model of Promise.all: completions arrive in an arbitrary
order and each writes the result of its own index into its own slot. -/
def runAllAux (results : ℕ → JStr) (slots : ℕ → Option JStr) :
    List ℕ → (ℕ → Option JStr)
  | [] => slots
  | j :: rest =>
    runAllAux results (fun k => if k = j then some (results j) else slots k) rest

/-- Final slot assignment of Promise.all after all completions ran. -/
def promiseAll (results : ℕ → JStr) (order : List ℕ) : ℕ → Option JStr :=
  runAllAux results (fun _ => none) order

theorem runAllAux_reads (results : ℕ → JStr) (order : List ℕ) :
    ∀ (slots : ℕ → Option JStr) (i : ℕ),
      (i ∈ order ∨ slots i = some (results i)) →
      runAllAux results slots order i = some (results i) := by
  induction order with
  | nil =>
    intro slots i h
    rcases h with h | h
    · cases h
    · exact h
  | cons j rest ih =>
    intro slots i h
    apply ih
    by_cases hij : i ∈ rest
    · exact Or.inl hij
    · right
      rcases h with h | h
      · have hj : i = j := by
          rcases List.mem_cons.mp h with h1 | h1
          · exact h1
          · exact absurd h1 hij
        simp [hj]
      · by_cases hj : i = j
        · simp [hj]
        · simp [hj, h]

theorem jsTrim_eq_nil_iff (s : JStr) :
    jsTrim s = [] ↔ ∀ c ∈ s, isJsWs c = true := by
  constructor
  · intro h c hc
    unfold jsTrim at h
    rw [List.reverse_eq_nil_iff, List.dropWhile_eq_nil_iff] at h
    have hsplit := List.takeWhile_append_dropWhile (p := isJsWs) (l := s)
    rw [← hsplit] at hc
    rcases List.mem_append.mp hc with h1 | h1
    · exact List.mem_takeWhile_imp h1
    · exact h c (List.mem_reverse.mpr h1)
  · intro h
    unfold jsTrim
    rw [List.reverse_eq_nil_iff, List.dropWhile_eq_nil_iff]
    intro c hc
    exact h c ((List.dropWhile_sublist _).subset (List.mem_reverse.mp hc))

theorem mem_jsJoin_head {c : Char} {t : JStr} (sep : JStr) (rest : List JStr)
    (hc : c ∈ t) : c ∈ jsJoin sep (t :: rest) := by
  cases rest with
  | nil => simpa [jsJoin] using hc
  | cons u us => simp [jsJoin, hc]

/-- C3: the results of the concurrent chunk transcriptions are gathered in
ascending chunk-index order regardless of completion order; the persisted
transcript is the non-empty (after trimming) results joined with a blank
line in that order; when everything is filtered out no transcript is
produced and the file is routed to the error folder. -/
theorem c3_combine_order_independent (n : ℕ) (results : ℕ → JStr)
    (order : List ℕ) (hcover : ∀ i, i < n → i ∈ order) :
    ((List.range n).map fun i => (promiseAll results order i).getD [])
        = (List.range n).map results
    ∧ combineTranscriptions
        ((List.range n).map fun i => (promiseAll results order i).getD [])
        = jsJoin "\n\n".toList
            (((List.range n).map results).filter keepTranscription)
    ∧ (((List.range n).map results).filter keepTranscription = [] →
        transcriptPersistDecision
          ((List.range n).map fun i => (promiseAll results order i).getD [])
          = none)
    ∧ (((List.range n).map results).filter keepTranscription ≠ [] →
        transcriptPersistDecision
          ((List.range n).map fun i => (promiseAll results order i).getD [])
          = some (combineTranscriptions ((List.range n).map results))) := by
  have hgather :
      ((List.range n).map fun i => (promiseAll results order i).getD [])
        = (List.range n).map results := by
    apply List.map_congr_left
    intro i hi
    rw [promiseAll,
      runAllAux_reads results order _ i
        (Or.inl (hcover i (List.mem_range.mp hi)))]
    rfl
  refine ⟨hgather, ?_, ?_, ?_⟩
  · rw [hgather]
    rfl
  · intro hf
    rw [hgather]
    simp [transcriptPersistDecision, combineTranscriptions, hf, jsJoin, jsTrim]
  · intro hf
    obtain ⟨t, rest, heq⟩ := List.exists_cons_of_ne_nil hf
    have hmem : t ∈ ((List.range n).map results).filter keepTranscription :=
      heq ▸ List.mem_cons_self t rest
    have hkeep := (List.mem_filter.mp hmem).2
    simp only [keepTranscription, Bool.and_eq_true, decide_eq_true_eq] at hkeep
    have htrim : jsTrim t ≠ [] := by
      intro h0
      rw [h0] at hkeep
      exact absurd hkeep.2 (by simp)
    have hex : ∃ c ∈ t, ¬ isJsWs c = true := by
      by_contra hall
      push_neg at hall
      exact htrim ((jsTrim_eq_nil_iff t).mpr hall)
    obtain ⟨c, hct, hcw⟩ := hex
    have hcin : c ∈ combineTranscriptions ((List.range n).map results) := by
      unfold combineTranscriptions
      rw [heq]
      exact mem_jsJoin_head _ _ hct
    have hne : jsTrim (combineTranscriptions ((List.range n).map results)) ≠ [] := by
      intro h0
      exact hcw ((jsTrim_eq_nil_iff _).mp h0 c hcin)
    have hpos : 0 <
        (jsTrim (combineTranscriptions ((List.range n).map results))).length :=
      List.length_pos.mpr hne
    rw [hgather]
    unfold transcriptPersistDecision
    rw [if_pos hpos]

/-- Chunk results used by the C3 witness. -/
def resultsW : ℕ → JStr := fun i => if i = 0 then "a".toList else "b".toList

/-- Witness for C3: with two chunks completing in reverse order the
gathered list is still in chunk-index order. -/
theorem c3_combine_order_independent_witness :
    ((List.range 2).map fun i => (promiseAll resultsW [1, 0] i).getD [])
      = (List.range 2).map resultsW :=
  (c3_combine_order_independent 2 resultsW [1, 0] (by decide)).1

/-! Model of src/services/wikijsMarkdowndService.ts (batch publishing). -/

/-- Suffix test modelling String.prototype.endsWith. -/
def jsEndsWith (suffix : JStr) (s : JStr) : Bool :=
  startsWithList suffix.reverse s.reverse

/-- One candidate file of a publishing batch: its name, the readFileSync
outcome (none models a thrown read error) and the createPage outcome for
it (the wiki API is an opaque external service). -/
structure MdFile where
  name : JStr
  content : Option JStr
  pageOutcome : Except String Unit

/-- Results tally accumulated by processAllMarkdownFiles. -/
structure WikiResults where
  successful : ℕ
  failed : ℕ
  errors : List (JStr × String)

/-- Per-file step of processAllMarkdownFiles: a read failure or an empty
file or a createPage failure increments failed and records an error entry;
a successful createPage increments successful.  The page-data computation
(front-matter extraction, title fallback, slug) feeds only the createPage
call, whose outcome is part of the file's environment. -/
def processOneMarkdownFile (r : WikiResults) (f : MdFile) : WikiResults :=
  match f.content with
  | none =>
    { r with failed := r.failed + 1,
             errors := r.errors ++ [(f.name, "read error")] }
  | some raw =>
    if jsTrim raw = [] then
      { r with failed := r.failed + 1,
               errors := r.errors ++ [(f.name, "Arquivo vazio")] }
    else
      match f.pageOutcome with
      | .ok _ => { r with successful := r.successful + 1 }
      | .error m =>
        { r with failed := r.failed + 1, errors := r.errors ++ [(f.name, m)] }

/-- Model of processAllMarkdownFiles: fold the per-file step over the .md
files of the directory; per-file failures are caught by the per-file
try/catch and never abort the loop. -/
def processAllMarkdownFiles (files : List MdFile) : WikiResults :=
  (files.filter (fun f => jsEndsWith ".md".toList f.name)).foldl
    processOneMarkdownFile ⟨0, 0, []⟩

/-- Model of insertAllMarkdownToWiki: run the batch, then throw exactly
when zero files succeeded and at least one failed. -/
def insertAllMarkdownToWiki (files : List MdFile) : Except String WikiResults :=
  let results := processAllMarkdownFiles files
  if results.successful = 0 ∧ results.failed > 0 then
    .error "Falha ao processar todos os arquivos. Veja os logs acima."
  else .ok results

theorem processOne_step (r : WikiResults) (f : MdFile) :
    ((processOneMarkdownFile r f).successful
        + (processOneMarkdownFile r f).failed
      = r.successful + r.failed + 1)
    ∧ (r.errors.length = r.failed →
        (processOneMarkdownFile r f).errors.length
          = (processOneMarkdownFile r f).failed) := by
  cases hcontent : f.content with
  | none =>
    refine ⟨?_, fun h => ?_⟩
    · simp only [processOneMarkdownFile, hcontent]
      omega
    · simp [processOneMarkdownFile, hcontent, h]
  | some raw =>
    by_cases hr : jsTrim raw = []
    · refine ⟨?_, fun h => ?_⟩
      · simp only [processOneMarkdownFile, hcontent, if_pos hr]
        omega
      · simp [processOneMarkdownFile, hcontent, if_pos hr, h]
    · cases hpage : f.pageOutcome with
      | ok u =>
        refine ⟨?_, fun h => ?_⟩
        · simp only [processOneMarkdownFile, hcontent, if_neg hr, hpage]
          omega
        · simp [processOneMarkdownFile, hcontent, if_neg hr, hpage, h]
      | error m =>
        refine ⟨?_, fun h => ?_⟩
        · simp only [processOneMarkdownFile, hcontent, if_neg hr, hpage]
          omega
        · simp [processOneMarkdownFile, hcontent, if_neg hr, hpage, h]

theorem processAll_tally_aux (files : List MdFile) :
    ∀ r : WikiResults,
      ((files.foldl processOneMarkdownFile r).successful
          + (files.foldl processOneMarkdownFile r).failed
        = r.successful + r.failed + files.length)
      ∧ (r.errors.length = r.failed →
          (files.foldl processOneMarkdownFile r).errors.length
            = (files.foldl processOneMarkdownFile r).failed) := by
  induction files with
  | nil => exact fun r => ⟨by simp, fun h => by simpa using h⟩
  | cons f rest ih =>
    intro r
    rw [List.foldl_cons]
    constructor
    · have h1 := (ih (processOneMarkdownFile r f)).1
      have h2 := (processOne_step r f).1
      rw [h1, h2]
      simp only [List.length_cons]
      omega
    · intro h
      exact (ih (processOneMarkdownFile r f)).2 ((processOne_step r f).2 h)

/-- C9: every .md file of the batch ends up tallied as either successful
or failed (per-file failures never abort the loop), each failure records
an error entry, and insertAllMarkdownToWiki throws exactly when zero files
succeeded and at least one failed. -/
theorem c9_batch_tally (files : List MdFile) :
    ((processAllMarkdownFiles files).successful
        + (processAllMarkdownFiles files).failed
      = (files.filter (fun f => jsEndsWith ".md".toList f.name)).length)
    ∧ ((processAllMarkdownFiles files).errors.length
        = (processAllMarkdownFiles files).failed)
    ∧ ((∃ e, insertAllMarkdownToWiki files = .error e) ↔
        ((processAllMarkdownFiles files).successful = 0
          ∧ 0 < (processAllMarkdownFiles files).failed)) := by
  have h := processAll_tally_aux
    (files.filter fun f => jsEndsWith ".md".toList f.name) ⟨0, 0, []⟩
  refine ⟨by simpa [processAllMarkdownFiles] using h.1,
    by simpa [processAllMarkdownFiles] using h.2 rfl, ?_⟩
  constructor
  · rintro ⟨e, he⟩
    simp only [insertAllMarkdownToWiki] at he
    by_cases hc : (processAllMarkdownFiles files).successful = 0
        ∧ (processAllMarkdownFiles files).failed > 0
    · exact hc
    · rw [if_neg hc] at he
      cases he
  · intro hc
    refine ⟨"Falha ao processar todos os arquivos. Veja os logs acima.", ?_⟩
    simp only [insertAllMarkdownToWiki]
    rw [if_pos hc]

/-- Batch used by the C9 witness: a single .md file whose createPage call
fails. -/
def c9Files : List MdFile :=
  [{ name := "a.md".toList, content := some "x".toList,
     pageOutcome := .error "boom" }]

/-- Witness for C9: a batch whose only file fails makes the batch
operation throw. -/
theorem c9_batch_tally_witness :
    ∃ e, insertAllMarkdownToWiki c9Files = .error e :=
  (c9_batch_tally c9Files).2.2.mpr ⟨by decide, by decide⟩

/-! Model of src/services/gptService.ts: content sanitization, prompt
construction and the chunk-processing retry logic. -/

/-- Word-character test modelling the regex class backslash-w. -/
def isWordChar (c : Char) : Bool :=
  c.isAlphanum || c == '_'

/-- Keyword group of the first PROBLEMATIC_PATTERNS regex. -/
def problematicWords1 : List JStr :=
  ["kill".toList, "murder".toList, "suicide".toList, "bomb".toList,
   "weapon".toList, "drug".toList, "illegal".toList, "hack".toList,
   "crack".toList, "pirate".toList]

/-- Keyword group of the second PROBLEMATIC_PATTERNS regex. -/
def problematicWords2 : List JStr :=
  ["copyright".toList, "proprietary".toList, "confidential".toList,
   "secret".toList, "classified".toList]

/-- Keyword group of the third PROBLEMATIC_PATTERNS regex. -/
def problematicWords3 : List JStr :=
  ["xxx".toList, "porn".toList, "adult".toList, "nsfw".toList]

/-- Word-boundary check after a keyword candidate at the head of s. -/
def boundaryAfterOk (w : JStr) (s : JStr) : Bool :=
  match s.drop w.length with
  | [] => true
  | c :: _ => !isWordChar c

/-- First keyword of the alternation that matches, case-insensitively, at
the head of s with a word boundary after it; returns its length. -/
def matchWordHere : List JStr → JStr → Option ℕ
  | [], _ => none
  | w :: ws, s =>
    if startsWithList w (jsLower s) && boundaryAfterOk w s then some w.length
    else matchWordHere ws s

/-- Scanner of one global word-boundary keyword replacement: fuel-indexed
structural recursion over the string (the fuel is initialised to the
string length, which bounds the number of scanning steps). -/
def replaceWordsAux (words : List JStr) : ℕ → Option Char → JStr → JStr
  | _, _, [] => []
  | 0, _, s => s
  | fuel + 1, prev, c :: rest =>
    let boundaryBefore :=
      match prev with
      | none => true
      | some p => !isWordChar p
    match (if boundaryBefore then matchWordHere words (c :: rest) else none) with
    | some len =>
      "[REDACTED]".toList ++
        replaceWordsAux words fuel ((c :: rest).take len).getLast?
          ((c :: rest).drop len)
    | none => c :: replaceWordsAux words fuel (some c) rest

/-- One global case-insensitive word-boundary replacement of a keyword
alternation by the string [REDACTED]. -/
def replaceWords (words : List JStr) (s : JStr) : JStr :=
  replaceWordsAux words s.length none s

/-- Characters kept by the special-character removal step (the regex keeps
word characters, whitespace and the listed punctuation). -/
def keptSpecialChars : List Char :=
  "-.,!?;:'\"()[]{}/\\@#$%^&*+=<>|".toList

/-- Special-character removal step of sanitizeContent. -/
def sanitizeSpecials (s : JStr) : JStr :=
  s.filter fun c => isWordChar c || isJsWs c || keptSpecialChars.contains c

/-- Emission of a pending run of newlines: runs of four or more collapse
to exactly three. -/
def emitNewlines (n : ℕ) : JStr :=
  if n ≥ 4 then "\n\n\n".toList else List.replicate n '\n'

/-- Scanner of the consecutive-line-break limiting step. -/
def limitNewlinesAux (pending : ℕ) : JStr → JStr
  | [] => emitNewlines pending
  | c :: rest =>
    if c = '\n' then limitNewlinesAux (pending + 1) rest
    else emitNewlines pending ++ c :: limitNewlinesAux 0 rest

/-- Line-break limiting step of sanitizeContent. -/
def limitNewlines (s : JStr) : JStr := limitNewlinesAux 0 s

/-- Model of sanitizeContent: the three keyword redactions in order, then
special-character removal, then line-break limiting.  The returned
warnings of the source only feed console.log and are omitted. -/
def sanitizeContent (content : JStr) : JStr :=
  limitNewlines (sanitizeSpecials
    (replaceWords problematicWords3
      (replaceWords problematicWords2
        (replaceWords problematicWords1 content))))

/-- Model of createSafePrompt: the fixed instruction template around the
base prompt and the sanitized content. -/
def createSafePrompt (basePrompt content : JStr) : JStr :=
  "You are a helpful assistant analyzing transcribed content for summarization and key insights.\n\nIMPORTANT INSTRUCTIONS:\n1. Focus on extracting factual information and creating summaries\n2. If you encounter any content that seems inappropriate, simply skip it and continue with the rest\n3. Do not refuse to process content - instead, focus on the parts you can summarize\n4. Maintain a professional and objective tone\n5. If the content seems corrupted or nonsensical, provide a brief summary stating that\n\nBASE TASK:\n".toList
    ++ basePrompt
    ++ "\n\nCONTENT TO ANALYZE:\n".toList
    ++ content
    ++ "\n\nPlease provide your analysis below:".toList

/-- Position annotation of a chunk among the total. -/
def chunkPosition (chunkIndex totalChunks : ℕ) : JStr :=
  if chunkIndex = 0 then "BEGINNING".toList
  else if chunkIndex = totalChunks - 1 then "FINAL".toList
  else "MIDDLE".toList

/-- Contextual prompt sent for a chunk: the safe prompt, plus the position
context when the document has more than one chunk. -/
def contextualPromptFor (safePrompt : JStr) (chunkIndex totalChunks : ℕ)
    (fileName : JStr) : JStr :=
  if totalChunks = 1 then safePrompt
  else
    safePrompt
      ++ "\n\nCONTEXT: This is the ".toList
      ++ chunkPosition chunkIndex totalChunks
      ++ " section of document \"".toList
      ++ fileName
      ++ "\" (part ".toList
      ++ (toString (chunkIndex + 1)).toList
      ++ " of ".toList
      ++ (toString totalChunks).toList
      ++ ").".toList

/-- Refusal detection applied to a successful API response: refusal
phrases in the lowercased result, or a result shorter than 50 characters,
are thrown and land in the retry path. -/
def isRefusal (result : JStr) : Bool :=
  containsSubList "i can't assist".toList (jsLower result)
    || containsSubList "i cannot assist".toList (jsLower result)
    || containsSubList "i'm unable to".toList (jsLower result)
    || decide (result.length < 50)

/-- Fallback prompt built for a retry from the sanitized chunk content. -/
def fallbackPromptFor (sanitized : JStr) : JStr :=
  "Please summarize the following transcribed content in a professional manner. Focus on main topics and key points:\n\n".toList
    ++ sanitized.take 5000
    ++ "...\n\nProvide a summary of the main topics discussed.".toList

/-- Placeholder string returned after all retries are exhausted. -/
def placeholderFor (chunkIndex : ℕ) : JStr :=
  "[Summary unavailable for part ".toList
    ++ (toString (chunkIndex + 1)).toList
    ++ " due to processing errors. The content may contain special characters or formatting that couldn't be processed.]".toList

/-- Record of one generation API call: the chunk and prompt arguments of
the invocation and the contextual prompt actually sent. -/
structure GenCall where
  chunkArg : JStr
  promptArg : JStr
  sent : JStr

/-- Model of processChunkWithContext.  The api parameter gives the outcome
of each generation call by global call index; the function returns the
produced text together with the list of calls it made.  A failed call (or
a response detected as a refusal, which the source throws into the same
catch) is retried while retryCount < maxRetries = 3, with the chunk
truncated to its first 5000 characters and the fallback prompt; after the
retries are exhausted the placeholder string is returned. -/
def processChunkWithContext (api : ℕ → Except Unit JStr) (callIdx : ℕ)
    (chunk prompt : JStr) (chunkIndex totalChunks : ℕ) (fileName : JStr)
    (retryCount : ℕ) : JStr × List GenCall :=
  let sanitized := sanitizeContent chunk
  let safePrompt := createSafePrompt prompt sanitized
  let contextualPrompt :=
    contextualPromptFor safePrompt chunkIndex totalChunks fileName
  let thisCall : GenCall :=
    { chunkArg := chunk, promptArg := prompt, sent := contextualPrompt }
  let callOutcome : Except Unit JStr :=
    match api callIdx with
    | .error e => .error e
    | .ok result => if isRefusal result then .error () else .ok result
  match callOutcome with
  | .ok result => (result, [thisCall])
  | .error _ =>
    if h : retryCount < 3 then
      let rec2 := processChunkWithContext api (callIdx + 1) (chunk.take 5000)
        (fallbackPromptFor sanitized) chunkIndex totalChunks fileName
        (retryCount + 1)
      (rec2.1, thisCall :: rec2.2)
    else (placeholderFor chunkIndex, [thisCall])
termination_by 3 - retryCount
decreasing_by omega

theorem processChunk_fail_step (api : ℕ → Except Unit JStr) (callIdx : ℕ)
    (chunk prompt : JStr) (chunkIndex totalChunks : ℕ) (fileName : JStr)
    (retryCount : ℕ) (h : api callIdx = .error ()) (hrc : retryCount < 3) :
    processChunkWithContext api callIdx chunk prompt chunkIndex totalChunks
        fileName retryCount
      = ((processChunkWithContext api (callIdx + 1) (chunk.take 5000)
            (fallbackPromptFor (sanitizeContent chunk)) chunkIndex totalChunks
            fileName (retryCount + 1)).1,
         { chunkArg := chunk, promptArg := prompt,
           sent := contextualPromptFor
             (createSafePrompt prompt (sanitizeContent chunk))
             chunkIndex totalChunks fileName }
           :: (processChunkWithContext api (callIdx + 1) (chunk.take 5000)
            (fallbackPromptFor (sanitizeContent chunk)) chunkIndex totalChunks
            fileName (retryCount + 1)).2) := by
  conv_lhs => rw [processChunkWithContext]
  simp only [h, dif_pos hrc]

theorem processChunk_fail_exhausted (api : ℕ → Except Unit JStr)
    (callIdx : ℕ) (chunk prompt : JStr) (chunkIndex totalChunks : ℕ)
    (fileName : JStr) (h : api callIdx = .error ()) :
    processChunkWithContext api callIdx chunk prompt chunkIndex totalChunks
        fileName 3
      = (placeholderFor chunkIndex,
         [{ chunkArg := chunk, promptArg := prompt,
            sent := contextualPromptFor
              (createSafePrompt prompt (sanitizeContent chunk))
              chunkIndex totalChunks fileName }]) := by
  conv_lhs => rw [processChunkWithContext]
  simp only [h]
  rw [dif_neg (by omega)]

/-- C8 counterexample: with a generation service that always fails, the
chunk is attempted four times (one initial call plus three retries), not
twice, and the second call's prompt argument differs from the first
call's, so the retry does not use identical inputs. -/
theorem c8_counterexample :
    ((processChunkWithContext (fun _ => .error ()) 0
        "hello world transcript".toList "Summarize.".toList 0 1
        "f.md".toList 0).2.length = 4 ∧ (4 : ℕ) ≠ 2)
    ∧ (((processChunkWithContext (fun _ => .error ()) 0
          "hello world transcript".toList "Summarize.".toList 0 1
          "f.md".toList 0).2.map GenCall.promptArg).get? 1
        ≠ ((processChunkWithContext (fun _ => .error ()) 0
          "hello world transcript".toList "Summarize.".toList 0 1
          "f.md".toList 0).2.map GenCall.promptArg).get? 0) := by
  rw [processChunk_fail_step _ 0 _ _ _ _ _ _ rfl (by omega),
    processChunk_fail_step _ 1 _ _ _ _ _ _ rfl (by omega),
    processChunk_fail_step _ 2 _ _ _ _ _ _ rfl (by omega),
    processChunk_fail_exhausted _ 3 _ _ _ _ _ rfl]
  refine ⟨⟨rfl, by omega⟩, ?_⟩
  simp only [List.map_cons, List.get?]
  intro hc
  exact absurd (Option.some.inj hc) (by decide)

/-- C8 as amended: a failed generation call is retried up to three times
(four attempts in total), each retry immediate but with modified inputs
(the chunk truncated to its first 5000 characters and a simplified
fallback prompt built from the sanitized content), before the chunk is
replaced with the placeholder string. -/
theorem c8_retry_behavior (api : ℕ → Except Unit JStr)
    (h : ∀ n, api n = .error ()) (chunk prompt : JStr)
    (chunkIndex totalChunks : ℕ) (fileName : JStr) :
    (processChunkWithContext api 0 chunk prompt chunkIndex totalChunks
        fileName 0).1 = placeholderFor chunkIndex
    ∧ (processChunkWithContext api 0 chunk prompt chunkIndex totalChunks
        fileName 0).2.map GenCall.chunkArg
      = [chunk, chunk.take 5000, chunk.take 5000, chunk.take 5000]
    ∧ (processChunkWithContext api 0 chunk prompt chunkIndex totalChunks
        fileName 0).2.map GenCall.promptArg
      = [prompt,
         fallbackPromptFor (sanitizeContent chunk),
         fallbackPromptFor (sanitizeContent (chunk.take 5000)),
         fallbackPromptFor (sanitizeContent (chunk.take 5000))] := by
  rw [processChunk_fail_step api 0 _ _ _ _ _ _ (h 0) (by omega),
    processChunk_fail_step api 1 _ _ _ _ _ _ (h 1) (by omega),
    processChunk_fail_step api 2 _ _ _ _ _ _ (h 2) (by omega),
    processChunk_fail_exhausted api 3 _ _ _ _ _ (h 3)]
  refine ⟨rfl, ?_, ?_⟩ <;> simp [List.take_take]

/-- Witness for the amended C8 at a concrete always-failing service. -/
theorem c8_retry_behavior_witness :
    (processChunkWithContext (fun _ => .error ()) 0 "abc".toList
        "p".toList 0 1 "f".toList 0).1 = placeholderFor 0 :=
  (c8_retry_behavior (fun _ => .error ()) (fun _ => rfl) "abc".toList
    "p".toList 0 1 "f".toList).1

/-! Model of smartSplitTextIntoChunks from src/services/gptService.ts.
The two JavaScript regex splits are modelled by fuel-indexed scanners (the
fuel is initialised to the string length, which bounds the number of
scanning steps, so the scanners are structurally recursive and
executable). -/

/-- Index of the last occurrence of a character in a list. -/
def lastIdxOf (c : Char) : JStr → Option ℕ
  | [] => none
  | x :: xs =>
    match lastIdxOf c xs with
    | some k => some (k + 1)
    | none => if x = c then some 0 else none

/-- Greedy continuation of a blank-line regex match: after an initial
newline, the regex consumes whitespace up to and including the last
newline of the maximal whitespace run; returns how many further
characters are consumed, or none when no further newline follows. -/
def blankMatch (rest : JStr) : Option ℕ :=
  match lastIdxOf '\n' (rest.takeWhile isJsWs) with
  | none => none
  | some k => some (k + 1)

/-- Scanner of the blank-line split (the split on newline-whitespace-
newline), accumulating the current section in reverse. -/
def splitBlankAux : ℕ → JStr → JStr → List JStr
  | _, acc, [] => [acc.reverse]
  | 0, acc, s => [acc.reverse ++ s]
  | fuel + 1, acc, c :: rest =>
    if c = '\n' then
      match blankMatch rest with
      | some k => acc.reverse :: splitBlankAux fuel [] (rest.drop k)
      | none => splitBlankAux fuel (c :: acc) rest
    else splitBlankAux fuel (c :: acc) rest

/-- Model of text.split on the blank-line regex. -/
def splitBlank (s : JStr) : List JStr := splitBlankAux s.length [] s

/-- Lookbehind test of the sentence-boundary regex. -/
def isSentEnd : Option Char → Bool
  | some '.' => true
  | some '!' => true
  | some '?' => true
  | _ => false

/-- Scanner of the sentence split (split on whitespace preceded by a
sentence-ending punctuation mark; the whitespace run is consumed). -/
def splitSentAux : ℕ → Option Char → JStr → JStr → List JStr
  | _, _, acc, [] => [acc.reverse]
  | 0, _, acc, s => [acc.reverse ++ s]
  | fuel + 1, prev, acc, c :: rest =>
    if isSentEnd prev && isJsWs c then
      acc.reverse :: splitSentAux fuel none [] (rest.dropWhile isJsWs)
    else splitSentAux fuel (some c) (c :: acc) rest

/-- Model of chunk.split on the sentence-boundary regex. -/
def splitSentences (s : JStr) : List JStr := splitSentAux s.length none [] s

/-- Greedy accumulation of sections into chunks (first pass of
smartSplitTextIntoChunks): grow the current chunk by sections joined with
a blank line; when adding a section would exceed the budget and the
current chunk is non-empty, flush it trimmed; at the end flush the current
chunk when its trimmed form is non-empty.  The source compares
potentialChunk.length > maxChars with maxChars = maxTokens * 3.5; since
3.5 = 7/2 exactly, this is written with both sides doubled to stay in the
integers: 2 * length > 7 * maxTokens. -/
def pass1Aux (maxTokens : ℕ) (currentChunk : JStr) : List JStr → List JStr
  | [] => if (jsTrim currentChunk).isEmpty then [] else [jsTrim currentChunk]
  | sec :: rest =>
    let potentialChunk :=
      currentChunk ++ (if currentChunk.isEmpty then [] else "\n\n".toList) ++ sec
    if 7 * maxTokens < 2 * potentialChunk.length ∧ 0 < currentChunk.length then
      jsTrim currentChunk :: pass1Aux maxTokens sec rest
    else pass1Aux maxTokens potentialChunk rest

/-- Greedy accumulation of sentences (second pass), joining with a single
space; the budget comparison is doubled as in the first pass. -/
def pass2Aux (maxTokens : ℕ) (sentenceChunk : JStr) : List JStr → List JStr
  | [] => if (jsTrim sentenceChunk).isEmpty then [] else [jsTrim sentenceChunk]
  | sent :: rest =>
    let potential :=
      sentenceChunk ++ (if sentenceChunk.isEmpty then [] else [' ']) ++ sent
    if 7 * maxTokens < 2 * potential.length ∧ 0 < sentenceChunk.length then
      jsTrim sentenceChunk :: pass2Aux maxTokens sent rest
    else pass2Aux maxTokens potential rest

/-- Second pass applied to one chunk: a chunk still over budget is split
by sentences, others are kept unchanged. -/
def refineChunk (maxTokens : ℕ) (chunk : JStr) : List JStr :=
  if 7 * maxTokens < 2 * chunk.length then
    pass2Aux maxTokens [] (splitSentences chunk)
  else [chunk]

/-- Model of smartSplitTextIntoChunks: a text within the character budget
maxTokens * 3.5 (i.e. 2 * length ≤ 7 * maxTokens) is returned as a single
chunk; otherwise it is split on blank lines, greedily accumulated, and
oversized chunks are refined by sentence splitting. -/
def smartSplitTextIntoChunks (text : JStr) (maxTokens : ℕ := 12000) :
    List JStr :=
  if 2 * text.length ≤ 7 * maxTokens then [text]
  else
    ((pass1Aux maxTokens [] (splitBlank text)).map (refineChunk maxTokens)).flatten

/-- Doubling the budget comparison is exact: a length is within the
character budget maxTokens * 3.5 iff twice the length is at most
7 * maxTokens. -/
theorem budget_iff (n m : ℕ) :
    ((n : ℚ) ≤ (m : ℚ) * (7 / 2)) ↔ 2 * n ≤ 7 * m := by
  constructor
  · intro h
    have h2 : (2 * n : ℚ) ≤ (7 * m : ℚ) := by linarith
    exact_mod_cast h2
  · intro h
    have h2 : (2 * n : ℚ) ≤ (7 * m : ℚ) := by exact_mod_cast h
    push_cast at h2
    linarith

/-- Characters of a string that are not whitespace. -/
def nonWsChars (s : JStr) : JStr := s.filter fun c => !isJsWs c

theorem nonWsChars_append (a b : JStr) :
    nonWsChars (a ++ b) = nonWsChars a ++ nonWsChars b := by
  simp [nonWsChars]

theorem nonWsChars_ws_nil {s : JStr} (h : ∀ c ∈ s, isJsWs c = true) :
    nonWsChars s = [] := by
  simp only [nonWsChars, List.filter_eq_nil_iff]
  intro c hc
  simp [h c hc]

theorem nonWsChars_takeWhile (s : JStr) :
    nonWsChars (s.takeWhile isJsWs) = [] :=
  nonWsChars_ws_nil fun _ hc => List.mem_takeWhile_imp hc

theorem nonWsChars_dropWhile (s : JStr) :
    nonWsChars (s.dropWhile isJsWs) = nonWsChars s := by
  calc nonWsChars (s.dropWhile isJsWs)
      = nonWsChars (s.takeWhile isJsWs) ++ nonWsChars (s.dropWhile isJsWs) := by
        rw [nonWsChars_takeWhile]
        rfl
    _ = nonWsChars (s.takeWhile isJsWs ++ s.dropWhile isJsWs) :=
        (nonWsChars_append _ _).symm
    _ = nonWsChars s := by rw [List.takeWhile_append_dropWhile]

theorem nonWsChars_reverse (s : JStr) :
    nonWsChars s.reverse = (nonWsChars s).reverse := by
  simp [nonWsChars, List.filter_reverse]

theorem nonWsChars_jsTrim (s : JStr) :
    nonWsChars (jsTrim s) = nonWsChars s := by
  unfold jsTrim
  rw [nonWsChars_reverse, nonWsChars_dropWhile, nonWsChars_reverse,
    List.reverse_reverse, nonWsChars_dropWhile]

theorem lastIdxOf_lt_length (c : Char) :
    ∀ (l : JStr) (k : ℕ), lastIdxOf c l = some k → k < l.length := by
  intro l
  induction l with
  | nil => intro k hk; cases hk
  | cons x xs ih =>
    intro k hk
    cases hrec : lastIdxOf c xs with
    | some k2 =>
      simp only [lastIdxOf, hrec] at hk
      cases hk
      have := ih k2 hrec
      simp only [List.length_cons]
      omega
    | none =>
      simp only [lastIdxOf, hrec] at hk
      by_cases hx : x = c
      · rw [if_pos hx] at hk
        cases hk
        simp
      · rw [if_neg hx] at hk
        cases hk

theorem blankMatch_spec (rest : JStr) (k : ℕ) (h : blankMatch rest = some k) :
    k ≤ rest.length ∧ nonWsChars (rest.take k) = [] := by
  unfold blankMatch at h
  cases hl : lastIdxOf '\n' (rest.takeWhile isJsWs) with
  | none => rw [hl] at h; cases h
  | some j =>
    rw [hl] at h
    cases h
    have hj := lastIdxOf_lt_length _ _ _ hl
    have hlen : (rest.takeWhile isJsWs).length ≤ rest.length :=
      (List.takeWhile_sublist _).length_le
    refine ⟨by omega, ?_⟩
    have htake : rest.take (j + 1) = (rest.takeWhile isJsWs).take (j + 1) := by
      conv_lhs =>
        rw [← List.takeWhile_append_dropWhile (p := isJsWs) (l := rest)]
      rw [List.take_append_of_le_length (by omega)]
    rw [htake]
    apply nonWsChars_ws_nil
    intro c hc
    exact List.mem_takeWhile_imp ((List.take_subset _ _) hc)

theorem splitBlankAux_nonWs :
    ∀ (fuel : ℕ) (acc s : JStr), s.length ≤ fuel →
      nonWsChars (splitBlankAux fuel acc s).flatten
        = nonWsChars acc.reverse ++ nonWsChars s := by
  intro fuel
  induction fuel with
  | zero =>
    intro acc s hs
    have hs0 : s = [] := List.eq_nil_of_length_eq_zero (Nat.le_zero.mp hs)
    subst hs0
    simp [splitBlankAux, nonWsChars]
  | succ fuel ih =>
    intro acc s hs
    cases s with
    | nil => simp [splitBlankAux, nonWsChars]
    | cons c rest =>
      have hrest : rest.length ≤ fuel := by
        simp only [List.length_cons] at hs
        omega
      have hcont : ∀ acc2 : JStr,
          nonWsChars (splitBlankAux fuel (c :: acc2) rest).flatten
            = nonWsChars acc2.reverse ++ nonWsChars (c :: rest) := by
        intro acc2
        rw [ih (c :: acc2) rest hrest, List.reverse_cons, nonWsChars_append]
        have hsplitc : nonWsChars (c :: rest)
            = nonWsChars [c] ++ nonWsChars rest := nonWsChars_append [c] rest
        rw [hsplitc, List.append_assoc]
      by_cases hc : c = '\n'
      · cases hbm : blankMatch rest with
        | some k =>
          have hstep : splitBlankAux (fuel + 1) acc (c :: rest)
              = acc.reverse :: splitBlankAux fuel [] (rest.drop k) := by
            simp [splitBlankAux, hc, hbm]
          rw [hstep]
          obtain ⟨hk, hws⟩ := blankMatch_spec rest k hbm
          have hdrop : (rest.drop k).length ≤ fuel := by
            simp only [List.length_drop]
            omega
          rw [List.flatten_cons, nonWsChars_append, ih [] (rest.drop k) hdrop]
          have h1 : nonWsChars (c :: rest) = nonWsChars (rest.drop k) := by
            subst hc
            have h2 : nonWsChars ('\n' :: rest) = nonWsChars rest := by
              have := nonWsChars_append ['\n'] rest
              rw [show nonWsChars ['\n'] = [] from by decide] at this
              simpa using this
            rw [h2]
            conv_lhs => rw [← List.take_append_drop k rest]
            rw [nonWsChars_append, hws]
            rfl
          rw [h1]
          rfl
        | none =>
          have hstep : splitBlankAux (fuel + 1) acc (c :: rest)
              = splitBlankAux fuel (c :: acc) rest := by
            simp [splitBlankAux, hc, hbm]
          rw [hstep, hcont acc]
      · have hstep : splitBlankAux (fuel + 1) acc (c :: rest)
            = splitBlankAux fuel (c :: acc) rest := by
          simp [splitBlankAux, hc]
        rw [hstep, hcont acc]

theorem splitSentAux_nonWs :
    ∀ (fuel : ℕ) (prev : Option Char) (acc s : JStr), s.length ≤ fuel →
      nonWsChars (splitSentAux fuel prev acc s).flatten
        = nonWsChars acc.reverse ++ nonWsChars s := by
  intro fuel
  induction fuel with
  | zero =>
    intro prev acc s hs
    have hs0 : s = [] := List.eq_nil_of_length_eq_zero (Nat.le_zero.mp hs)
    subst hs0
    simp [splitSentAux, nonWsChars]
  | succ fuel ih =>
    intro prev acc s hs
    cases s with
    | nil => simp [splitSentAux, nonWsChars]
    | cons c rest =>
      have hrest : rest.length ≤ fuel := by
        simp only [List.length_cons] at hs
        omega
      by_cases hcond : (isSentEnd prev && isJsWs c) = true
      · have hstep : splitSentAux (fuel + 1) prev acc (c :: rest)
            = acc.reverse :: splitSentAux fuel none [] (rest.dropWhile isJsWs) := by
          simp [splitSentAux, hcond]
        rw [hstep]
        have hdrop : (rest.dropWhile isJsWs).length ≤ fuel :=
          le_trans (List.dropWhile_sublist _).length_le hrest
        rw [List.flatten_cons, nonWsChars_append,
          ih none [] (rest.dropWhile isJsWs) hdrop]
        have hcws : isJsWs c = true := (Bool.and_eq_true_iff.mp hcond).2
        have h1 : nonWsChars (c :: rest) = nonWsChars (rest.dropWhile isJsWs) := by
          have h2 := nonWsChars_append [c] rest
          rw [show nonWsChars [c] = [] from
            nonWsChars_ws_nil (fun d hd => by
              rcases List.mem_singleton.mp hd with rfl
              exact hcws)] at h2
          rw [show nonWsChars (c :: rest) = nonWsChars ([c] ++ rest) from rfl, h2,
            nonWsChars_dropWhile]
          rfl
        rw [h1]
        rfl
      · have hstep : splitSentAux (fuel + 1) prev acc (c :: rest)
            = splitSentAux fuel (some c) (c :: acc) rest := by
          simp [splitSentAux, hcond]
        rw [hstep, ih (some c) (c :: acc) rest hrest, List.reverse_cons,
          nonWsChars_append]
        have hsplitc : nonWsChars (c :: rest)
            = nonWsChars [c] ++ nonWsChars rest := nonWsChars_append [c] rest
        rw [hsplitc, List.append_assoc]

theorem nonWsChars_blankSep : nonWsChars "\n\n".toList = [] := by decide

theorem nonWsChars_space : nonWsChars [' '] = [] := by decide

theorem pass1Aux_nonWs (maxTokens : ℕ) :
    ∀ (sections : List JStr) (current : JStr),
      nonWsChars (pass1Aux maxTokens current sections).flatten
        = nonWsChars current ++ nonWsChars sections.flatten := by
  intro sections
  induction sections with
  | nil =>
    intro current
    by_cases h : (jsTrim current).isEmpty
    · have hnil : jsTrim current = [] := List.isEmpty_iff.mp h
      have hcur : nonWsChars current = [] := by
        rw [← nonWsChars_jsTrim, hnil]
        rfl
      have hres : pass1Aux maxTokens current [] = [] := by
        simp [pass1Aux, h]
      rw [hres]
      simp [hcur]
    · have hres : pass1Aux maxTokens current [] = [jsTrim current] := by
        simp [pass1Aux, h]
      rw [hres]
      simp only [List.flatten_cons, List.flatten_nil, List.append_nil,
        nonWsChars_jsTrim]
      rw [show nonWsChars ([] : JStr) = [] from rfl, List.append_nil]
  | cons sec rest ih =>
    intro current
    have hpot : nonWsChars
        (current ++ (if current.isEmpty then [] else "\n\n".toList) ++ sec)
        = nonWsChars current ++ nonWsChars sec := by
      rw [nonWsChars_append, nonWsChars_append]
      by_cases he : current.isEmpty
      · rw [if_pos he]
        rw [show nonWsChars ([] : JStr) = [] from rfl, List.append_nil]
      · rw [if_neg he, nonWsChars_blankSep]
        simp
    by_cases hcond : 7 * maxTokens < 2 *
        (current ++ (if current.isEmpty then [] else "\n\n".toList) ++ sec).length
        ∧ 0 < current.length
    · have hres : pass1Aux maxTokens current (sec :: rest)
          = jsTrim current :: pass1Aux maxTokens sec rest := by
        simp only [pass1Aux]
        rw [if_pos hcond]
      rw [hres, List.flatten_cons, nonWsChars_append, nonWsChars_jsTrim,
        ih sec, List.flatten_cons, nonWsChars_append]
    · have hres : pass1Aux maxTokens current (sec :: rest)
          = pass1Aux maxTokens
              (current ++ (if current.isEmpty then [] else "\n\n".toList) ++ sec)
              rest := by
        simp only [pass1Aux]
        rw [if_neg hcond]
      rw [hres, ih _, hpot, List.flatten_cons, nonWsChars_append,
        List.append_assoc]

theorem pass2Aux_nonWs (maxTokens : ℕ) :
    ∀ (sents : List JStr) (current : JStr),
      nonWsChars (pass2Aux maxTokens current sents).flatten
        = nonWsChars current ++ nonWsChars sents.flatten := by
  intro sents
  induction sents with
  | nil =>
    intro current
    by_cases h : (jsTrim current).isEmpty
    · have hnil : jsTrim current = [] := List.isEmpty_iff.mp h
      have hcur : nonWsChars current = [] := by
        rw [← nonWsChars_jsTrim, hnil]
        rfl
      have hres : pass2Aux maxTokens current [] = [] := by
        simp [pass2Aux, h]
      rw [hres]
      simp [hcur]
    · have hres : pass2Aux maxTokens current [] = [jsTrim current] := by
        simp [pass2Aux, h]
      rw [hres]
      simp only [List.flatten_cons, List.flatten_nil, List.append_nil,
        nonWsChars_jsTrim]
      rw [show nonWsChars ([] : JStr) = [] from rfl, List.append_nil]
  | cons sent rest ih =>
    intro current
    have hpot : nonWsChars
        (current ++ (if current.isEmpty then [] else [' ']) ++ sent)
        = nonWsChars current ++ nonWsChars sent := by
      rw [nonWsChars_append, nonWsChars_append]
      by_cases he : current.isEmpty
      · rw [if_pos he]
        rw [show nonWsChars ([] : JStr) = [] from rfl, List.append_nil]
      · rw [if_neg he, nonWsChars_space]
        simp
    by_cases hcond : 7 * maxTokens < 2 *
        (current ++ (if current.isEmpty then [] else [' ']) ++ sent).length
        ∧ 0 < current.length
    · have hres : pass2Aux maxTokens current (sent :: rest)
          = jsTrim current :: pass2Aux maxTokens sent rest := by
        simp only [pass2Aux]
        rw [if_pos hcond]
      rw [hres, List.flatten_cons, nonWsChars_append, nonWsChars_jsTrim,
        ih sent, List.flatten_cons, nonWsChars_append]
    · have hres : pass2Aux maxTokens current (sent :: rest)
          = pass2Aux maxTokens
              (current ++ (if current.isEmpty then [] else [' ']) ++ sent)
              rest := by
        simp only [pass2Aux]
        rw [if_neg hcond]
      rw [hres, ih _, hpot, List.flatten_cons, nonWsChars_append,
        List.append_assoc]

theorem refineChunk_nonWs (maxTokens : ℕ) (chunk : JStr) :
    nonWsChars (refineChunk maxTokens chunk).flatten = nonWsChars chunk := by
  unfold refineChunk
  split
  · rw [pass2Aux_nonWs]
    unfold splitSentences
    rw [splitSentAux_nonWs chunk.length none [] chunk le_rfl]
    rfl
  · simp [nonWsChars]

theorem flatten_map_refine_nonWs (maxTokens : ℕ) :
    ∀ chunks : List JStr,
      nonWsChars ((chunks.map (refineChunk maxTokens)).flatten).flatten
        = nonWsChars chunks.flatten := by
  intro chunks
  induction chunks with
  | nil => rfl
  | cons c rest ih =>
    rw [List.map_cons, List.flatten_cons, List.flatten_append,
      nonWsChars_append, refineChunk_nonWs, ih, List.flatten_cons,
      nonWsChars_append]

/-- C5 counterexample: an over-budget input whose first blank-line
separator is a newline, a space, and a newline.  The chunker returns a
first chunk in which that separator has been normalised to two plain
newlines, so the chunk is not even a contiguous substring of the input;
hence no re-joining of the returned chunks with the original separators
can reproduce the original text modulo whitespace trimmed at chunk
boundaries. -/
theorem c5_counterexample :
    (¬ ((("aa\n \naa\n\ncccccccccccccc".toList : JStr).length : ℚ)
        ≤ (4 : ℚ) * (7 / 2)))
    ∧ smartSplitTextIntoChunks "aa\n \naa\n\ncccccccccccccc".toList 4
        = ["aa\n\naa".toList, "cccccccccccccc".toList]
    ∧ ¬ ∃ l r, ("aa\n \naa\n\ncccccccccccccc".toList : JStr)
          = l ++ "aa\n\naa".toList ++ r := by
  refine ⟨?_, by decide, ?_⟩
  · intro h
    have h2 := (budget_iff _ 4).mp h
    revert h2
    decide
  · rintro ⟨l, r, hr⟩
    have hsub : containsSubList "aa\n\naa".toList
        "aa\n \naa\n\ncccccccccccccc".toList = true :=
      (containsSubList_iff _ _).mpr ⟨l, r, hr⟩
    exact absurd hsub (by decide)

/-- C5 as amended: an input within the character budget maxTokens * 3.5
(default 12000) is returned as the single chunk equal to the input; for
any input, concatenating the returned chunks preserves the input's
non-whitespace characters in order, but whitespace may be altered inside
chunks as well (blank-line separators are normalised to two newlines,
whitespace after sentence boundaries to one space, chunk ends trimmed),
so re-joining with the original separators need not reproduce the
original text. -/
theorem c5_split_amended (text : JStr) (maxTokens : ℕ) :
    (((text.length : ℚ) ≤ (maxTokens : ℚ) * (7 / 2)) →
      smartSplitTextIntoChunks text maxTokens = [text])
    ∧ nonWsChars (smartSplitTextIntoChunks text maxTokens).flatten
      = nonWsChars text := by
  constructor
  · intro h
    have h2 : 2 * text.length ≤ 7 * maxTokens := (budget_iff _ _).mp h
    simp [smartSplitTextIntoChunks, h2]
  · by_cases h2 : 2 * text.length ≤ 7 * maxTokens
    · simp [smartSplitTextIntoChunks, h2, nonWsChars]
    · have hsb : nonWsChars (splitBlank text).flatten = nonWsChars text := by
        unfold splitBlank
        rw [splitBlankAux_nonWs text.length [] text le_rfl]
        rfl
      simp only [smartSplitTextIntoChunks, if_neg h2]
      rw [flatten_map_refine_nonWs, pass1Aux_nonWs, hsb]
      rfl

/-- Witness for the amended C5 at a concrete under-budget input. -/
theorem c5_split_amended_witness :
    smartSplitTextIntoChunks "abc".toList 12000 = ["abc".toList]
    ∧ nonWsChars (smartSplitTextIntoChunks "abc".toList 12000).flatten
      = nonWsChars "abc".toList := by
  have h := c5_split_amended "abc".toList 12000
  exact ⟨h.1 ((budget_iff 3 12000).mpr (by norm_num)), h.2⟩

end VideoToAudio
